import Mathlib

/-!
Verification of the ingestion pipeline of `fb_downloader.py` and the polling
variant of `url_downloader.py`.

The Python source is shallowly embedded: Python dictionaries become
association lists over a `Json` value type, the filesystem visible to
`save_data` becomes an explicit `FileSys` record (directory status plus the
files present in the destination directory), exceptions become explicit
error flags or `Except` values, and the generator-based pagination and the
crawl loop of `save_full_author_data` become structural recursions over the
scripted sequence of remote responses.
-/

namespace SNA

/-- JSON values, the shape of every payload the downloader handles. -/
inductive Json where
  | null : Json
  | bool (b : Bool) : Json
  | num (n : Int) : Json
  | str (s : String) : Json
  | arr (elems : List Json) : Json
  | obj (kvs : List (String × Json)) : Json
deriving Repr

/-- A Python dictionary with string keys, as used for posts and interactions. -/
abbrev Dict := List (String × Json)

/-- `d[k]` lookup that returns `none` when the key is absent (`dict.get`). -/
def dictGet (d : Dict) (k : String) : Option Json :=
  (d.find? (fun kv => kv.1 = k)).map (fun kv => kv.2)

/-- `d[k] = v` assignment: replaces the value of an existing key in place,
appends a fresh binding otherwise. -/
def dictSet (d : Dict) (k : String) (v : Json) : Dict :=
  match d with
  | [] => [(k, v)]
  | (k', v') :: rest =>
      if k' = k then (k, v) :: rest else (k', v') :: dictSet rest k v

/-- `del d[k]`: removes every binding of `k` (a Python dict has at most one). -/
def dictErase (d : Dict) (k : String) : Dict :=
  d.filter (fun kv => kv.1 ≠ k)

/-- Decimal digit character, as produced by Python `str` on a number `0..9`. -/
def digitChar (d : Nat) : Char :=
  match d with
  | 0 => '0' | 1 => '1' | 2 => '2' | 3 => '3' | 4 => '4'
  | 5 => '5' | 6 => '6' | 7 => '7' | 8 => '8' | 9 => '9'
  | _ => '?'

/-- Numeric value of a decimal digit character. -/
def digitVal (c : Char) : Nat := c.toNat - 48

/-- Decimal digit list of `n`, most significant first; fuel-driven so that it
is structurally recursive (any fuel above `n` is enough). -/
def natDigitsAux : Nat → Nat → List Char
  | 0, _ => []
  | fuel + 1, n =>
      if n < 10 then [digitChar n]
      else natDigitsAux fuel (n / 10) ++ [digitChar (n % 10)]

/-- Decimal rendering of a natural number, Python's `str(n)` for `n ≥ 0`. -/
def natToStr (n : Nat) : String := ⟨natDigitsAux (n + 1) n⟩

/-- Reads a decimal digit list back into the number it denotes. -/
def decDecode (l : List Char) : Nat :=
  l.foldl (fun a c => a * 10 + digitVal c) 0

/-- `p` is a prefix of `s` (decidable, character-list based). -/
def strIsPrefix (p s : String) : Bool := p.data.isPrefixOf s.data

/-- `pat` occurs as a substring of `s` (Python's `pat in s`). -/
def strContains (s pat : String) : Bool :=
  s.data.tails.any (fun t => pat.data.isPrefixOf t)

/-- Status of the destination data directory path on disk. -/
inductive DirStatus where
  | isDir : DirStatus
  | isFile : DirStatus
  | absent : DirStatus
deriving DecidableEq, Repr

/-- The filesystem state `save_data` can observe and modify: the status of
the destination directory path and the files inside it (name, JSON content). -/
structure FileSys where
  dirStatus : DirStatus
  files : List (String × Json)

/-- The shard filename `"{prefix}data_{counter}.json"` built by `save_data`. -/
def mkFilename (pfx : String) (n : Nat) : String :=
  pfx ++ "data_" ++ natToStr n ++ ".json"

/-- `save_data`'s prefix normalization: a non-empty prefix not already ending
in an underscore gets one appended. -/
def normPrefix (pfx : String) : String :=
  if pfx ≠ "" ∧ pfx.data.getLast? ≠ some '_' then pfx ++ "_" else pfx

/-- The `while True` filename search of `save_data`: starting from counter
`c`, return the first counter whose filename is not among `names`; the fuel
argument makes the recursion structural (fuel `names.length + 1` suffices). -/
def firstFreeFrom (names : List String) (pfx : String) : Nat → Nat → Nat
  | 0, c => c
  | fuel + 1, c =>
      if mkFilename pfx c ∈ names then firstFreeFrom names pfx fuel (c + 1) else c

/-- The smallest counter whose shard filename is not already in `names`. -/
def firstFree (names : List String) (pfx : String) : Nat :=
  firstFreeFrom names pfx (names.length + 1) 0

/-- `GraphApi.save_data`: refuses (returning `false`, writing nothing) when
the destination directory path is a regular file; otherwise creates the
directory if needed and writes `obj` to the first available
`<prefix>data_<n>.json`. The boolean records whether a file was written. -/
def save_data (fs : FileSys) (obj : Json) ( filename_prefix : String) :
    FileSys × Bool :=
  match fs.dirStatus with
  | .isFile => (fs, false)
  | .isDir =>
      let pfx := normPrefix filename_prefix
      let n := firstFree (fs.files.map (fun f => f.1)) pfx
      ({ dirStatus := .isDir, files := fs.files ++ [(mkFilename pfx n, obj)] }, true)
  | .absent =>
      -- os.makedirs creates a fresh, empty directory; the filename search
      -- then runs against that empty directory.
      let pfx := normPrefix filename_prefix
      ({ dirStatus := .isDir, files := [(mkFilename pfx (firstFree [] pfx), obj)] }, true)

/-- `GraphApi.get_interaction_list_size`: 273 bytes per interaction. -/
def get_interaction_list_size (list_obj : List Json) : Nat :=
  273 * list_obj.length

/-- `GraphApi.get_post_list_size`: 1010 bytes per post. -/
def get_post_list_size (list_obj : List Json) : Nat :=
  1010 * list_obj.length

/-- `DATA_FILE_SIZE`: the 20 MiB flush threshold. -/
def DATA_FILE_SIZE : Nat := 20 * 1024 * 1024

/-- `GraphApi.append_interaction`: append, then flush to an
`interaction`-prefixed shard and clear the list when the size estimate
exceeds the threshold. The `save_data` success flag is ignored, exactly as
in the source. -/
def append_interaction (fs : FileSys) (interaction_list : List Json)
    (interaction : Json) : FileSys × List Json :=
  let l := interaction_list ++ [interaction]
  if get_interaction_list_size l > DATA_FILE_SIZE then
    ((save_data fs (.arr l) "interaction").1, [])
  else
    (fs, l)

/-! ### Interaction construction (`save_full_author_data`, fan-out section) -/

/-- The `interactionTemplate` dictionary deep-copied for every interaction. -/
def interactionTemplate (author_id : String) : Dict :=
  [("id", .null), ("status_id", .null), ("status_author", .str author_id),
   ("type", .null), ("author", .null), ("origin", .str "facebook")]

/-- A raw comment as yielded by the `{post}/comments` fan-out, carrying the
fields the crawl requests and reads. -/
structure CommentRaw where
  id : String
  created_time : String
  fromId : String
  message : String
  like_count : Int

/-- A raw like: the API returns the liking user's id in the `id` field. -/
structure LikeRaw where
  id : String

/-- A raw share from `{post}/sharedposts`; `message` may be absent. -/
structure ShareRaw where
  id : String
  created_time : String
  fromId : String
  message : Option String

/-- The synthesized like-interaction id: `"L_{userId}_{postId}"`. -/
def mkLikeId (acting_user_id post_id : String) : String :=
  "L_" ++ acting_user_id ++ "_" ++ post_id

/-- The comment → interaction projection of the fan-out. -/
def commentInteraction (author_id post_id : String) (c : CommentRaw) : Dict :=
  let i := interactionTemplate author_id
  let i := dictSet i "type" (.str "comment")
  let i := dictSet i "id" (.str c.id)
  let i := dictSet i "status_id" (.str post_id)
  let i := dictSet i "created_time" (.str c.created_time)
  let i := dictSet i "author" (.str c.fromId)
  let i := dictSet i "message" (.str c.message)
  dictSet i "like_count" (.num c.like_count)

/-- The like → interaction projection of the fan-out. -/
def likeInteraction (author_id post_id : String) (l : LikeRaw) : Dict :=
  let i := interactionTemplate author_id
  let i := dictSet i "id" (.str (mkLikeId l.id post_id))
  let i := dictSet i "type" (.str "like")
  let i := dictSet i "status_id" (.str post_id)
  dictSet i "author" (.str l.id)

/-- The share → interaction projection of the fan-out. -/
def shareInteraction (author_id post_id : String) (s : ShareRaw) : Dict :=
  let i := interactionTemplate author_id
  let i := dictSet i "type" (.str "share")
  let i := dictSet i "id" (.str s.id)
  let i := dictSet i "status_id" (.str post_id)
  let i := dictSet i "created_time" (.str s.created_time)
  let i := dictSet i "author" (.str s.fromId)
  dictSet i "message" (.str (s.message.getD ""))

/-! ### Post normalization (`save_full_author_data`, lines 447–454) -/

/-- `post['shares'].get('count', 0)`; the API returns the `shares` field as
an object, so non-object shapes (which do not occur) map to the default 0. -/
def sharesCount (shares : Json) : Json :=
  match shares with
  | .obj kvs => (dictGet kvs "count").getD (.num 0)
  | _ => .num 0

/-- The in-place post mutation of the crawl loop: set `origin` and `author`,
then flatten the nested `shares` count into `share_count` (defaulting to 0)
and delete the nested `shares` field. -/
def process_post (author_id : String) (post : Dict) : Dict :=
  let post := dictSet post "origin" (.str "facebook")
  let post := dictSet post "author" (.str author_id)
  match dictGet post "shares" with
  | some sh => dictErase (dictSet post "share_count" (sharesCount sh)) "shares"
  | none => dictSet post "share_count" (.num 0)

/-! ### The crawl driver (`save_full_author_data`)

The generator-based pagination plus exception control flow is embedded by
scripting the remote side: each post comes with the sub-items its three
fan-out generators yield before either finishing normally or raising (a
remote error marker raises `ValueError` inside `get_all_elements`, a
transport failure raises from `requests`; either way the generator's
consumer sees an exception after the already-yielded items). -/

/-- A raw post as yielded by the `{author}/posts` pagination: its id plus
the remaining response fields (possibly including a nested `shares`). -/
structure RawPost where
  id : String
  rest : Dict

/-- The post as a Python dictionary. -/
def postDict (p : RawPost) : Dict := ("id", .str p.id) :: p.rest

/-- One top-level post together with the scripted outcome of its three
sub-resource fan-outs: the items each generator yields, and whether the
generator then raises instead of finishing. -/
structure PostInput where
  post : RawPost
  comments : List CommentRaw
  commentsErr : Bool
  likes : List LikeRaw
  likesErr : Bool
  shares : List ShareRaw
  sharesErr : Bool

/-- The driver's in-memory state: the filesystem plus the two buffers. -/
structure CrawlState where
  fs : FileSys
  posts : List Json
  inters : List Json

/-- The `for`-loop of one fan-out: feed each projected interaction record
through `append_interaction`, threading the filesystem and the list. -/
def appendAll (fs : FileSys) (il : List Json) (items : List Json) :
    FileSys × List Json :=
  items.foldl (fun a x => append_interaction a.1 a.2 x) (fs, il)

/-- `posts.append(post)` followed by the in-loop threshold check that
flushes the post buffer to a `post`-prefixed shard. -/
def bufferPost (st : CrawlState) (p : Json) : CrawlState :=
  let posts := st.posts ++ [p]
  if get_post_list_size posts > DATA_FILE_SIZE then
    ⟨(save_data st.fs (.arr posts) "post").1, [], st.inters⟩
  else ⟨st.fs, posts, st.inters⟩

/-- One fan-out loop: run the projected interaction records through
`append_interaction`. -/
def fanoutStep (st : CrawlState) (items : List Json) : CrawlState :=
  let r := appendAll st.fs st.inters items
  ⟨r.1, st.posts, r.2⟩

/-- The loop body for one post: normalize and buffer the post, then run the
comment, like and share fan-outs in order; the boolean reports whether a
sub-resource generator raised (aborting the crawl after this post's
already-yielded items were appended). -/
def processPost (author_id : String) (st : CrawlState) (pi : PostInput) :
    CrawlState × Bool :=
  let postId := pi.post.id
  let st := bufferPost st (.obj (process_post author_id (postDict pi.post)))
  let st := fanoutStep st
    (pi.comments.map (fun c => .obj (commentInteraction author_id postId c)))
  if pi.commentsErr then (st, true) else
  let st := fanoutStep st
    (pi.likes.map (fun l => .obj (likeInteraction author_id postId l)))
  if pi.likesErr then (st, true) else
  let st := fanoutStep st
    (pi.shares.map (fun s => .obj (shareInteraction author_id postId s)))
  (st, pi.sharesErr)

/-- How the `for post in ...` loop ended. -/
inductive Outcome where
  | finished : Outcome  -- the post stream was exhausted (the next pull may raise)
  | broke : Outcome     -- `postCount >= POST_COUNT` stopped the loop
  | aborted : Outcome   -- a sub-resource generator raised
deriving DecidableEq, Repr

/-- The crawl loop over the scripted posts; `cnt` is `postCount` so far. -/
def crawlLoop (author_id : String) (limit : Nat) :
    List PostInput → Nat → CrawlState → CrawlState × Outcome
  | [], _, st => (st, .finished)
  | pi :: rest, cnt, st =>
      let r := processPost author_id st pi
      if r.2 then (r.1, .aborted)
      else if cnt + 1 ≥ limit then (r.1, .broke)
      else crawlLoop author_id limit rest (cnt + 1) r.1

/-- `save_full_author_data`: run the crawl loop, then — in the `finally`
block, on every exit path — flush the non-empty buffers (`interaction`
prefix for interactions, `posts` prefix for the final post flush). The
boolean is whether an exception surfaces to the caller: a sub-resource
abort always does, and an error ending the top-level post stream does
exactly when the loop consumed the whole stream without breaking. -/
def save_full_author_data (author_id : String) (limit : Nat)
    (inputs : List PostInput) (topErr : Bool) (fs0 : FileSys) : FileSys × Bool :=
  let r := crawlLoop author_id limit inputs 0 ⟨fs0, [], []⟩
  let fs1 :=
    if r.1.inters.isEmpty then r.1.fs
    else (save_data r.1.fs (.arr r.1.inters) "interaction").1
  let fs2 :=
    if r.1.posts.isEmpty then fs1
    else (save_data fs1 (.arr r.1.posts) "posts").1
  (fs2, r.2 = .aborted || (r.2 = .finished && topErr))

/-! ### Flushed shards and produced records -/

/-- The element list of a JSON array (shard files always hold arrays). -/
def asArr (j : Json) : List Json :=
  match j with
  | .arr l => l
  | _ => []

/-- All records, in write order, across the shard files of one kind: the
files whose name starts with `kindPrefix`. -/
def flushedOfKind (kindPrefix : String) (fs : FileSys) : List Json :=
  ((fs.files.filter (fun f => strIsPrefix kindPrefix f.1)).map
    (fun f => asArr f.2)).flatten

/-- Whether processing this post aborts the crawl. -/
def postAborts (pi : PostInput) : Bool :=
  pi.commentsErr || pi.likesErr || pi.sharesErr

/-- Specification-side definition (follows the spec's fan-out description):
the interaction records produced for one post, stopping at the first
sub-resource that raises. -/
def postInteractions (author_id : String) (pi : PostInput) : List Json :=
  let cs := pi.comments.map (fun c => Json.obj (commentInteraction author_id pi.post.id c))
  if pi.commentsErr then cs
  else
    let ls := pi.likes.map (fun l => Json.obj (likeInteraction author_id pi.post.id l))
    if pi.likesErr then cs ++ ls
    else cs ++ ls ++ pi.shares.map (fun s => Json.obj (shareInteraction author_id pi.post.id s))

/-- Specification-side definition: every interaction record the run produces
up to its termination point (abort, post-count break, or stream end). -/
def producedInteractions (author_id : String) (limit : Nat) :
    List PostInput → Nat → List Json
  | [], _ => []
  | pi :: rest, cnt =>
      postInteractions author_id pi ++
        (if postAborts pi || decide (cnt + 1 ≥ limit) then []
         else producedInteractions author_id limit rest (cnt + 1))

/-- Specification-side definition: every post record the run produces up to
its termination point. -/
def producedPosts (author_id : String) (limit : Nat) :
    List PostInput → Nat → List Json
  | [], _ => []
  | pi :: rest, cnt =>
      Json.obj (process_post author_id (postDict pi.post)) ::
        (if postAborts pi || decide (cnt + 1 ≥ limit) then []
         else producedPosts author_id limit rest (cnt + 1))

/-! ### Pagination (`get_all_elements`) over scripted page responses -/

/-- A Python exception, as surfaced by the downloader. -/
inductive PyErr where
  | valueError (payload : Json)
  | attributeError
  | runtimeError (payload : Json)
deriving Repr

/-- `GraphApi.response_has_error`. -/
def response_has_error (response_dict : Dict) (raise_exception : Bool) :
    Except PyErr (Option Json) :=
  match dictGet response_dict "error" with
  | some e => if raise_exception then .error (.valueError e) else .ok (some e)
  | none => .ok none

/-- `page['data']` as read by the pagination loop (always a JSON array in
API responses). -/
def pageData (page : Dict) : List Json :=
  match dictGet page "data" with
  | some (.arr l) => l
  | _ => []

/-- `page.get('paging', {}).get('next', None)` (the `paging` field of an
API response is always an object when present). -/
def pageNext (page : Dict) : Option Json :=
  match dictGet page "paging" with
  | some (.obj kvs) => dictGet kvs "next"
  | _ => none

/-- Python truthiness of the `next` URL (`if not nextUrl: return`). -/
def nextUrlTruthy (page : Dict) : Bool :=
  match pageNext page with
  | some (.str s) => ¬s.isEmpty
  | some .null => false
  | some _ => true
  | none => false

/-- `GraphApi.get_all_elements` over the scripted sequence of pages the
server serves (the head is the first response, each following element the
response for the previous page's `next` URL). Returns the elements yielded
in order, plus the exception the generator raises afterwards, if any:
`response_has_error` is called with `raise_exception` defaulted to `True`,
so an error marker raises `ValueError` out of the generator. -/
def get_all_elements : List Dict → List Json × Option PyErr
  | [] => ([], none)
  | page :: rest =>
      match dictGet page "error" with
      | some e => ([], some (.valueError e))
      | none =>
          if (pageData page).isEmpty then ([], none)
          else if nextUrlTruthy page then
            let r := get_all_elements rest
            (pageData page ++ r.1, r.2)
          else (pageData page, none)

/-! ### Credential exchange (`access_token_request`, `GraphApi.__init__`) -/

/-- The body of the `oauth/access_token` response: either valid JSON (what
`json.loads` accepts) or plain text (on which `json.loads` raises
`ValueError`). -/
inductive TokenResp where
  | jsonResp (j : Json)
  | textResp (s : String)

/-- Python `s.replace(pat, '')`: removes every (left-to-right,
non-overlapping) occurrence of `pat`; fuel-driven structural recursion
(`s.length` fuel always suffices since `pat` is non-empty in our use). -/
def replaceAllAux (pat : List Char) : Nat → List Char → List Char
  | 0, s => s
  | fuel + 1, s =>
      match s with
      | [] => []
      | c :: rest =>
          if pat ≠ [] ∧ pat.isPrefixOf s then
            replaceAllAux pat fuel (s.drop pat.length)
          else c :: replaceAllAux pat fuel rest

/-- Python `s.replace(pat, '')` on strings. -/
def strRemoveAll (s pat : String) : String :=
  ⟨replaceAllAux pat.data s.data.length s.data⟩

/-- `GraphApi.access_token_request`, given the scripted response body.
A JSON object body returns its `access_token` field (possibly `None`);
a non-object JSON body makes `.get` raise `AttributeError`; a plain-text
body containing `access_token` has the `access_token=` prefix stripped;
any other plain-text body reaches `response.get('error', None)`, which
raises `AttributeError` on a `str` (so the `RuntimeError` branch below it
is unreachable). -/
def access_token_request (resp : TokenResp) : Except PyErr (Option Json) :=
  match resp with
  | .jsonResp j =>
      match j with
      | .obj kvs => .ok (dictGet kvs "access_token")
      | _ => .error .attributeError
  | .textResp s =>
      if strContains s "access_token" then
        .ok (some (.str (strRemoveAll s "access_token=")))
      else .error .attributeError

/-- The fields of a constructed `GraphApi` object. -/
structure GraphApi where
  appId : String
  appSecret : String
  accessToken : Option Json

/-- `GraphApi.__init__`: reject missing credentials, then acquire the token
— before any page fetch, since no `GraphApi` object exists (and hence no
`request` can be issued) unless the exchange succeeded. -/
def GraphApi.init (app_id app_secret : String) (resp : TokenResp) :
    Except PyErr GraphApi :=
  if app_id = "" ∨ app_secret = "" then
    .error (.valueError (.str "Facebook GraphAPI APP_ID or APP_SECRET is missing"))
  else
    match access_token_request resp with
    | .error e => .error e
    | .ok tok => .ok ⟨app_id, app_secret, tok⟩

/-! ### Polling variant (`url_downloader.Main`) -/

/-- A Twitter data unit: one URL extracted from a tweet, keyed by the
tweet's id (`getId`). -/
structure DU where
  id : Nat
  url : String
deriving DecidableEq, Repr

/-- Serialization of a data unit for `SaveResults`. -/
def duToJson (du : DU) : Json :=
  .obj [("id", .num du.id), ("url", .str du.url)]

/-- The polling loop's mutable state: the accumulator, the seen-id list and
the `max_id` cursor. -/
structure PollState where
  results : List DU
  resultsIds : List Nat
  maxId : Option Nat
deriving Repr

/-- The per-unit body: lower the `max_id` cursor, then skip the unit when
its id was already seen, otherwise append it to both the accumulator and
the seen-id list. -/
def processDu (st : PollState) (du : DU) : PollState :=
  let mx := match st.maxId with
    | some m => min m du.id
    | none => du.id
  let st := { st with maxId := some mx }
  if du.id ∈ st.resultsIds then st
  else { st with results := st.results ++ [du], resultsIds := st.resultsIds ++ [du.id] }

/-- The per-tweet body: skipped entirely when the tweet yielded no data
units; otherwise initialize `max_id` from the first unit and fold the
units. -/
def processTweet (st : PollState) (dus : List DU) : PollState :=
  match dus with
  | [] => st
  | first :: _ =>
      let st := { st with maxId := some (st.maxId.getD first.id) }
      dus.foldl processDu st

/-- One poll: fold every tweet's extracted units. -/
def processPoll (st : PollState) (tweets : List (List DU)) : PollState :=
  tweets.foldl processTweet st

/-- The whole polling run over the scripted polls. -/
def runPolls (polls : List (List (List DU))) : PollState :=
  polls.foldl processPoll ⟨[], [], none⟩

/-- `url_downloader.SaveResults`: same directory handling and `data_<n>.json`
search as `save_data`, without a prefix. -/
def SaveResults (fs : FileSys) (results : List DU) : FileSys × Bool :=
  match fs.dirStatus with
  | .isFile => (fs, false)
  | .isDir =>
      let n := firstFree (fs.files.map (fun f => f.1)) ""
      ({ dirStatus := .isDir,
         files := fs.files ++ [(mkFilename "" n, .arr (results.map duToJson))] }, true)
  | .absent =>
      ({ dirStatus := .isDir,
         files := [(mkFilename "" (firstFree [] ""), .arr (results.map duToJson))] }, true)

/-- `url_downloader.Main`'s try/finally: run the polls (the `err` flag
scripts a `GetTweets` exception after the given polls), then persist the
whole accumulator in the `finally` block on every exit path. -/
def pollingMain (polls : List (List (List DU))) (err : Bool) (fs : FileSys) :
    FileSys × Bool :=
  let st := runPolls polls
  let r := SaveResults fs st.results
  (r.1, err)

/-- A shard filename prefix actually used by the crawl of
`save_full_author_data`: `interaction_` for every interaction flush,
`post_` for in-loop post flushes, `posts_` for the final post flush. -/
def goodShardName (name : String) : Bool :=
  strIsPrefix "interaction_" name || strIsPrefix "post_" name ||
    strIsPrefix "posts_" name

/-- The crawl-step invariant: stepping from `old` to `new` keeps the
destination a directory, extends the flushed-plus-pending interaction and
post records by exactly `newInters` and `newPosts`, and only adds files
with the crawl's shard prefixes. -/
def Extends (old new : CrawlState) (newInters newPosts : List Json) : Prop :=
  new.fs.dirStatus = DirStatus.isDir ∧
  flushedOfKind "interaction_" new.fs ++ new.inters
    = flushedOfKind "interaction_" old.fs ++ old.inters ++ newInters ∧
  flushedOfKind "post" new.fs ++ new.posts
    = flushedOfKind "post" old.fs ++ old.posts ++ newPosts ∧
  (∀ f ∈ new.fs.files, f ∈ old.fs.files ∨ goodShardName f.1 = true)

/-- Every data-unit id observed across all polls, in order. -/
def allPollIds (polls : List (List (List DU))) : List Nat :=
  (polls.flatten.flatten).map (fun du => du.id)

theorem digitVal_digitChar {d : Nat} (h : d < 10) : digitVal (digitChar d) = d := by
  interval_cases d <;> rfl

theorem decDecode_natDigitsAux :
    ∀ fuel n, n < fuel → decDecode (natDigitsAux fuel n) = n := by
  intro fuel
  induction fuel with
  | zero => intro n h; omega
  | succ f ih =>
      intro n h
      by_cases h10 : n < 10
      · simp [natDigitsAux, h10, decDecode, List.foldl, digitVal_digitChar h10]
      · have hd : n / 10 < f := by
          have h1 : n / 10 < n := Nat.div_lt_self (by omega) (by omega)
          omega
        simp only [natDigitsAux, if_neg h10]
        have hfold : decDecode (natDigitsAux f (n / 10) ++ [digitChar (n % 10)])
            = decDecode (natDigitsAux f (n / 10)) * 10 + digitVal (digitChar (n % 10)) := by
          simp [decDecode, List.foldl_append]
        rw [hfold, ih _ hd, digitVal_digitChar (Nat.mod_lt n (by omega))]
        omega

theorem natToStr_injective : Function.Injective natToStr := by
  intro m n h
  have hdata : natDigitsAux (m + 1) m = natDigitsAux (n + 1) n :=
    congrArg String.data h
  have hm := decDecode_natDigitsAux (m + 1) m (Nat.lt_succ_self m)
  have hn := decDecode_natDigitsAux (n + 1) n (Nat.lt_succ_self n)
  rw [hdata] at hm
  omega

theorem mkFilename_injective (pfx : String) :
    Function.Injective (mkFilename pfx) := by
  intro m n h
  apply natToStr_injective
  apply String.ext
  have hdata := congrArg String.data h
  simp only [mkFilename, String.data_append, List.append_assoc] at hdata
  have h1 := List.append_cancel_left hdata
  have h2 := List.append_cancel_left h1
  exact List.append_cancel_right h2

theorem firstFreeFrom_mem (names : List String) (pfx : String) :
    ∀ fuel c m, c ≤ m → m < firstFreeFrom names pfx fuel c →
      mkFilename pfx m ∈ names := by
  intro fuel
  induction fuel with
  | zero => intro c m hc hm; simp [firstFreeFrom] at hm; omega
  | succ f ih =>
      intro c m hc hm
      simp only [firstFreeFrom] at hm
      by_cases hmem : mkFilename pfx c ∈ names
      · rw [if_pos hmem] at hm
        rcases Nat.eq_or_lt_of_le hc with hec | hlt
        · exact hec ▸ hmem
        · exact ih (c + 1) m hlt hm
      · rw [if_neg hmem] at hm; omega

theorem firstFreeFrom_not_mem (names : List String) (pfx : String) :
    ∀ fuel c, (∃ j, j < fuel ∧ mkFilename pfx (c + j) ∉ names) →
      mkFilename pfx (firstFreeFrom names pfx fuel c) ∉ names := by
  intro fuel
  induction fuel with
  | zero => intro c ⟨j, hj, _⟩; omega
  | succ f ih =>
      intro c ⟨j, hj, hfree⟩
      simp only [firstFreeFrom]
      by_cases hmem : mkFilename pfx c ∈ names
      · rw [if_pos hmem]
        apply ih
        refine ⟨j - 1, ?_, ?_⟩
        · rcases Nat.eq_zero_or_pos j with h0 | hpos
          · subst h0; simp at hfree; exact absurd hmem hfree
          · omega
        · have hj0 : j ≠ 0 := by
            intro h0; subst h0; simp at hfree; exact hfree hmem
          have : c + 1 + (j - 1) = c + j := by omega
          rw [this]; exact hfree
      · rw [if_neg hmem]; exact hmem

theorem exists_free_index (names : List String) (pfx : String) :
    ∃ j, j < names.length + 1 ∧ mkFilename pfx j ∉ names := by
  by_contra hall
  push_neg at hall
  have hsub : (Finset.range (names.length + 1)).image (mkFilename pfx)
      ⊆ names.toFinset := by
    intro x hx
    simp only [Finset.mem_image, Finset.mem_range] at hx
    obtain ⟨j, hj, rfl⟩ := hx
    exact List.mem_toFinset.mpr (hall j hj)
  have hcard := Finset.card_le_card hsub
  rw [Finset.card_image_of_injective _ (mkFilename_injective pfx),
      Finset.card_range] at hcard
  have := List.toFinset_card_le names
  omega

theorem firstFree_not_mem (names : List String) (pfx : String) :
    mkFilename pfx (firstFree names pfx) ∉ names := by
  apply firstFreeFrom_not_mem
  obtain ⟨j, hj, hfree⟩ := exists_free_index names pfx
  exact ⟨j, hj, by simpa using hfree⟩

theorem firstFree_minimal (names : List String) (pfx : String) :
    ∀ m, m < firstFree names pfx → mkFilename pfx m ∈ names := by
  intro m hm
  exact firstFreeFrom_mem names pfx _ 0 m (Nat.zero_le m) hm

/-! ### Dictionary lemmas -/

theorem dictGet_cons (kv : String × Json) (d : Dict) (k : String) :
    dictGet (kv :: d) k = if kv.1 = k then some kv.2 else dictGet d k := by
  by_cases h : kv.1 = k <;> simp [dictGet, List.find?, h]

theorem dictGet_dictSet_self (d : Dict) (k : String) (v : Json) :
    dictGet (dictSet d k v) k = some v := by
  induction d with
  | nil => simp [dictSet, dictGet_cons]
  | cons kv rest ih =>
      by_cases h : kv.1 = k
      · simp [dictSet, h, dictGet_cons]
      · simp only [dictSet, if_neg h]
        rw [dictGet_cons, if_neg h]
        exact ih

theorem dictGet_dictSet_other (d : Dict) (k k' : String) (v : Json)
    (h : k' ≠ k) : dictGet (dictSet d k v) k' = dictGet d k' := by
  induction d with
  | nil => simp [dictSet, dictGet_cons, Ne.symm h, dictGet]
  | cons kv rest ih =>
      by_cases hk : kv.1 = k
      · simp only [dictSet, if_pos hk]
        rw [dictGet_cons, dictGet_cons, if_neg (by simp [Ne.symm h]),
            if_neg (by rw [hk]; exact fun hc => h (hc.symm))]
      · simp only [dictSet, if_neg hk]
        rw [dictGet_cons, dictGet_cons]
        by_cases hk' : kv.1 = k'
        · simp [hk']
        · simp only [if_neg hk']
          exact ih

theorem dictGet_dictErase_self (d : Dict) (k : String) :
    dictGet (dictErase d k) k = none := by
  induction d with
  | nil => simp [dictGet, dictErase]
  | cons kv rest ih =>
      by_cases h : kv.1 = k
      · simpa [dictErase, h] using ih
      · simp only [dictErase, List.filter]
        rw [decide_eq_true (by exact h : kv.1 ≠ k)]
        rw [dictGet_cons, if_neg h]
        simpa [dictErase] using ih

theorem dictGet_dictErase_other (d : Dict) (k k' : String) (h : k' ≠ k) :
    dictGet (dictErase d k) k' = dictGet d k' := by
  induction d with
  | nil => simp [dictGet, dictErase]
  | cons kv rest ih =>
      by_cases hk : kv.1 = k
      · have hne : kv.1 ≠ k' := by rw [hk]; exact Ne.symm h
        rw [dictGet_cons, if_neg hne]
        simpa [dictErase, hk] using ih
      · simp only [dictErase, List.filter]
        rw [decide_eq_true (by exact hk : kv.1 ≠ k)]
        rw [dictGet_cons, dictGet_cons]
        by_cases hk' : kv.1 = k'
        · simp [hk']
        · simp only [if_neg hk']
          simpa [dictErase] using ih

/-! ### String-prefix lemmas for shard filenames -/

theorem isPrefixOf_append_self (p t : List Char) : p.isPrefixOf (p ++ t) = true :=
  List.isPrefixOf_iff_prefix.mpr ⟨t, rfl⟩

theorem strIsPrefix_append (p t : String) : strIsPrefix p (p ++ t) = true := by
  simp only [strIsPrefix, String.data_append]
  exact isPrefixOf_append_self _ _

theorem strIsPrefix_mkFilename (pfx : String) (n : Nat) :
    strIsPrefix pfx (mkFilename pfx n) = true := by
  simp only [strIsPrefix, mkFilename, String.data_append, List.append_assoc]
  exact isPrefixOf_append_self _ _

theorem isPrefixOf_cons_false {a b : Char} {l1 l2 : List Char} (h : a ≠ b) :
    (a :: l1).isPrefixOf (b :: l2) = false := by
  simp [List.isPrefixOf, h]

theorem data_mkFilename (pfx : String) (n : Nat) :
    (mkFilename pfx n).data
      = pfx.data ++ ("data_" ++ natToStr n ++ ".json").data := by
  simp [mkFilename, String.data_append]

theorem head_mkFilename (pfx : String) (n : Nat) (c : Char) (t : List Char)
    (h : pfx.data = c :: t) :
    (mkFilename pfx n).data = c :: (t ++ ("data_" ++ natToStr n ++ ".json").data) := by
  rw [data_mkFilename, h]; rfl

theorem strIsPrefix_interaction_post (n : Nat) :
    strIsPrefix "interaction_" (mkFilename "post_" n) = false := by
  have h := head_mkFilename "post_" n 'p' "ost_".data rfl
  simp only [strIsPrefix, h]
  exact isPrefixOf_cons_false (by decide)

theorem strIsPrefix_interaction_posts (n : Nat) :
    strIsPrefix "interaction_" (mkFilename "posts_" n) = false := by
  have h := head_mkFilename "posts_" n 'p' "osts_".data rfl
  simp only [strIsPrefix, h]
  exact isPrefixOf_cons_false (by decide)

theorem strIsPrefix_post_interaction (n : Nat) :
    strIsPrefix "post" (mkFilename "interaction_" n) = false := by
  have h := head_mkFilename "interaction_" n 'i' "nteraction_".data rfl
  simp only [strIsPrefix, h]
  exact isPrefixOf_cons_false (by decide)

theorem strIsPrefix_post_post (n : Nat) :
    strIsPrefix "post" (mkFilename "post_" n) = true := by
  have h : ("post_" : String) = "post" ++ "_" := rfl
  simp only [strIsPrefix, mkFilename, h, String.data_append, List.append_assoc]
  exact isPrefixOf_append_self _ _

theorem strIsPrefix_post_posts (n : Nat) :
    strIsPrefix "post" (mkFilename "posts_" n) = true := by
  have h : ("posts_" : String) = "post" ++ "s_" := rfl
  simp only [strIsPrefix, mkFilename, h, String.data_append, List.append_assoc]
  exact isPrefixOf_append_self _ _

/-! ### `save_data` and flushed-shard lemmas -/

theorem save_data_isDir (fs : FileSys) (obj : Json) (pfx : String)
    (h : fs.dirStatus = .isDir) :
    save_data fs obj pfx =
      ({ dirStatus := .isDir,
         files := fs.files ++
           [(mkFilename (normPrefix pfx)
               (firstFree (fs.files.map (fun f => f.1)) (normPrefix pfx)), obj)] },
       true) := by
  simp [save_data, h]

theorem flushedOfKind_mk (k : String) (d : DirStatus) (files : List (String × Json)) :
    flushedOfKind k ⟨d, files⟩
      = ((files.filter (fun f => strIsPrefix k f.1)).map (fun f => asArr f.2)).flatten :=
  rfl

theorem flushedOfKind_append_file (k : String) (d d' : DirStatus)
    (files : List (String × Json)) (name : String) (obj : Json) :
    flushedOfKind k ⟨d, files ++ [(name, obj)]⟩
      = flushedOfKind k ⟨d', files⟩
          ++ (if strIsPrefix k name then asArr obj else []) := by
  simp only [flushedOfKind, List.filter_append, List.map_append, List.flatten_append]
  by_cases h : strIsPrefix k name
  · simp [h]
  · simp [h]

theorem flushedOfKind_eta (k : String) (fs : FileSys) (d : DirStatus) :
    flushedOfKind k ⟨d, fs.files⟩ = flushedOfKind k fs :=
  rfl

theorem normPrefix_interaction : normPrefix "interaction" = "interaction_" := by decide

theorem normPrefix_post : normPrefix "post" = "post_" := by decide

theorem normPrefix_posts : normPrefix "posts" = "posts_" := by decide

/-- The interaction-buffer invariant of one `append_interaction` call:
flushed interaction shards plus the pending list together grow by exactly
the appended record; post shards are untouched; every new file is an
interaction shard. -/
theorem append_interaction_spec (fs : FileSys) (il : List Json) (i : Json)
    (h : fs.dirStatus = .isDir) :
    (append_interaction fs il i).1.dirStatus = .isDir ∧
    flushedOfKind "interaction_" (append_interaction fs il i).1
        ++ (append_interaction fs il i).2
      = flushedOfKind "interaction_" fs ++ (il ++ [i]) ∧
    flushedOfKind "post" (append_interaction fs il i).1 = flushedOfKind "post" fs ∧
    (∀ f ∈ (append_interaction fs il i).1.files,
      f ∈ fs.files ∨ goodShardName f.1 = true) := by
  by_cases hs : get_interaction_list_size (il ++ [i]) > DATA_FILE_SIZE
  · simp only [append_interaction, if_pos hs,
      save_data_isDir fs _ _ h, normPrefix_interaction]
    refine ⟨by trivial, ?_, ?_, ?_⟩
    · rw [flushedOfKind_append_file "interaction_" .isDir fs.dirStatus,
        strIsPrefix_mkFilename]
      simp [flushedOfKind_eta, asArr]
    · rw [flushedOfKind_append_file "post" .isDir fs.dirStatus,
        strIsPrefix_post_interaction]
      simp [flushedOfKind_eta]
    · intro f hf
      rcases List.mem_append.mp hf with hold | hnew
      · exact Or.inl hold
      · right
        simp only [List.mem_singleton] at hnew
        subst hnew
        simp [goodShardName, strIsPrefix_mkFilename]
  · simp only [append_interaction, if_neg hs]
    refine ⟨h, ?_, ?_, fun f hf => Or.inl hf⟩ <;> trivial

/-- The same invariant for a whole fan-out loop. -/
theorem appendAll_spec (items : List Json) :
    ∀ (fs : FileSys) (il : List Json), fs.dirStatus = .isDir →
    (appendAll fs il items).1.dirStatus = .isDir ∧
    flushedOfKind "interaction_" (appendAll fs il items).1
        ++ (appendAll fs il items).2
      = flushedOfKind "interaction_" fs ++ il ++ items ∧
    flushedOfKind "post" (appendAll fs il items).1 = flushedOfKind "post" fs ∧
    (∀ f ∈ (appendAll fs il items).1.files,
      f ∈ fs.files ∨ goodShardName f.1 = true) := by
  induction items with
  | nil =>
      intro fs il h
      refine ⟨h, ?_, ?_, fun f hf => Or.inl hf⟩ <;> simp [appendAll]
  | cons x rest ih =>
      intro fs il h
      obtain ⟨h1, h2, h3, h4⟩ := append_interaction_spec fs il x h
      have hfold : appendAll fs il (x :: rest)
          = appendAll (append_interaction fs il x).1
              (append_interaction fs il x).2 rest := by
        simp [appendAll, List.foldl_cons]
      obtain ⟨g1, g2, g3, g4⟩ :=
        ih (append_interaction fs il x).1 (append_interaction fs il x).2 h1
      refine ⟨hfold ▸ g1, ?_, ?_, ?_⟩
      · rw [hfold, g2, h2]
        simp [List.append_assoc]
      · rw [hfold, g3, h3]
      · intro f hf
        rw [hfold] at hf
        rcases g4 f hf with hmem | hgood
        · rcases h4 f hmem with hmem' | hgood'
          · exact Or.inl hmem'
          · exact Or.inr hgood'
        · exact Or.inr hgood

theorem Extends.trans {a b c : CrawlState} {i1 p1 i2 p2 : List Json}
    (h1 : Extends a b i1 p1) (h2 : Extends b c i2 p2) :
    Extends a c (i1 ++ i2) (p1 ++ p2) := by
  obtain ⟨d1, fi1, fp1, g1⟩ := h1
  obtain ⟨d2, fi2, fp2, g2⟩ := h2
  refine ⟨d2, ?_, ?_, ?_⟩
  · rw [fi2, fi1]; simp [List.append_assoc]
  · rw [fp2, fp1]; simp [List.append_assoc]
  · intro f hf
    rcases g2 f hf with hm | hg
    · exact g1 f hm
    · exact Or.inr hg

theorem Extends.refl (st : CrawlState) (h : st.fs.dirStatus = .isDir) :
    Extends st st [] [] := by
  refine ⟨h, by simp, by simp, fun f hf => Or.inl hf⟩

theorem bufferPost_spec (st : CrawlState) (p : Json)
    (h : st.fs.dirStatus = .isDir) :
    Extends st (bufferPost st p) [] [p] := by
  unfold Extends bufferPost
  by_cases hs : get_post_list_size (st.posts ++ [p]) > DATA_FILE_SIZE
  · simp only [if_pos hs, save_data_isDir st.fs _ _ h, normPrefix_post]
    refine ⟨by trivial, ?_, ?_, ?_⟩
    · show flushedOfKind "interaction_"
          ⟨.isDir, st.fs.files ++ [(mkFilename "post_" _, Json.arr (st.posts ++ [p]))]⟩
          ++ st.inters = _
      rw [flushedOfKind_append_file "interaction_" .isDir st.fs.dirStatus,
        strIsPrefix_interaction_post]
      simp [flushedOfKind_eta]
    · show flushedOfKind "post"
          ⟨.isDir, st.fs.files ++ [(mkFilename "post_" _, Json.arr (st.posts ++ [p]))]⟩
          ++ ([] : List Json) = _
      rw [flushedOfKind_append_file "post" .isDir st.fs.dirStatus,
        strIsPrefix_post_post]
      simp [flushedOfKind_eta, asArr]
    · intro f hf
      rcases List.mem_append.mp hf with hold | hnew
      · exact Or.inl hold
      · right
        simp only [List.mem_singleton] at hnew
        subst hnew
        simp [goodShardName, strIsPrefix_mkFilename]
  · simp only [if_neg hs]
    exact ⟨h, by simp, by simp [List.append_assoc], fun f hf => Or.inl hf⟩

theorem fanoutStep_spec (st : CrawlState) (items : List Json)
    (h : st.fs.dirStatus = .isDir) :
    Extends st (fanoutStep st items) items [] := by
  obtain ⟨h1, h2, h3, h4⟩ := appendAll_spec items st.fs st.inters h
  unfold Extends fanoutStep
  refine ⟨h1, ?_, ?_, h4⟩
  · show flushedOfKind "interaction_" (appendAll st.fs st.inters items).1
        ++ (appendAll st.fs st.inters items).2 = _
    rw [h2]
  · show flushedOfKind "post" (appendAll st.fs st.inters items).1
        ++ st.posts = _
    rw [h3]; simp

theorem processPost_spec (author_id : String) (st : CrawlState) (pi : PostInput)
    (h : st.fs.dirStatus = .isDir) :
    Extends st (processPost author_id st pi).1
      (postInteractions author_id pi)
      [Json.obj (process_post author_id (postDict pi.post))] ∧
    (processPost author_id st pi).2 = postAborts pi := by
  have hb := bufferPost_spec st
    (.obj (process_post author_id (postDict pi.post))) h
  have hbd : (bufferPost st (.obj (process_post author_id (postDict pi.post)))).fs.dirStatus
      = .isDir := hb.1
  set st1 := bufferPost st (.obj (process_post author_id (postDict pi.post))) with hst1
  have hc := fanoutStep_spec st1
    (pi.comments.map (fun c => .obj (commentInteraction author_id pi.post.id c))) hbd
  set st2 := fanoutStep st1
    (pi.comments.map (fun c => .obj (commentInteraction author_id pi.post.id c))) with hst2
  by_cases hce : pi.commentsErr
  · have : processPost author_id st pi = (st2, true) := by
      simp [processPost, hce, hst1, hst2]
    rw [this]
    have he := Extends.trans hb hc
    simp only [postInteractions, postAborts, hce]
    constructor
    · simpa using he
    · simp
  · have hl := fanoutStep_spec st2
      (pi.likes.map (fun l => .obj (likeInteraction author_id pi.post.id l))) hc.1
    set st3 := fanoutStep st2
      (pi.likes.map (fun l => .obj (likeInteraction author_id pi.post.id l))) with hst3
    by_cases hle : pi.likesErr
    · have : processPost author_id st pi = (st3, true) := by
        simp [processPost, hce, hle, hst1, hst2, hst3]
      rw [this]
      have he := Extends.trans (Extends.trans hb hc) hl
      simp only [postInteractions, postAborts, hce, hle]
      constructor
      · simpa using he
      · simp
    · have hsh := fanoutStep_spec st3
        (pi.shares.map (fun s => .obj (shareInteraction author_id pi.post.id s))) hl.1
      set st4 := fanoutStep st3
        (pi.shares.map (fun s => .obj (shareInteraction author_id pi.post.id s))) with hst4
      have : processPost author_id st pi = (st4, pi.sharesErr) := by
        simp [processPost, hce, hle, hst1, hst2, hst3, hst4]
      rw [this]
      have he := Extends.trans (Extends.trans (Extends.trans hb hc) hl) hsh
      simp only [postInteractions, postAborts, hce, hle]
      constructor
      · simpa using he
      · simp

theorem processPost_flag (author_id : String) (st : CrawlState) (pi : PostInput) :
    (processPost author_id st pi).2 = postAborts pi := by
  cases hce : pi.commentsErr <;> cases hle : pi.likesErr <;>
    simp [processPost, postAborts, hce, hle]

theorem crawlLoop_spec (author_id : String) (limit : Nat) :
    ∀ (inputs : List PostInput) (cnt : Nat) (st : CrawlState),
      st.fs.dirStatus = .isDir →
      Extends st (crawlLoop author_id limit inputs cnt st).1
        (producedInteractions author_id limit inputs cnt)
        (producedPosts author_id limit inputs cnt) := by
  intro inputs
  induction inputs with
  | nil =>
      intro cnt st h
      simpa [crawlLoop, producedInteractions, producedPosts] using Extends.refl st h
  | cons pi rest ih =>
      intro cnt st h
      obtain ⟨he, hflag⟩ := processPost_spec author_id st pi h
      by_cases ha : postAborts pi = true
      · have hres : crawlLoop author_id limit (pi :: rest) cnt st
            = ((processPost author_id st pi).1, .aborted) := by
          simp [crawlLoop, hflag, ha]
        rw [hres]
        simpa [producedInteractions, producedPosts, ha] using he
      · have ha' : postAborts pi = false := by
          cases hv : postAborts pi
          · rfl
          · exact absurd hv ha
        by_cases hb : cnt + 1 ≥ limit
        · have hres : crawlLoop author_id limit (pi :: rest) cnt st
              = ((processPost author_id st pi).1, .broke) := by
            simp [crawlLoop, hflag, ha', hb]
          rw [hres]
          simpa [producedInteractions, producedPosts, ha', hb] using he
        · have hres : crawlLoop author_id limit (pi :: rest) cnt st
              = crawlLoop author_id limit rest (cnt + 1) (processPost author_id st pi).1 := by
            simp [crawlLoop, hflag, ha', hb]
          rw [hres]
          have hrec := ih (cnt + 1) (processPost author_id st pi).1 he.1
          have := Extends.trans he hrec
          simpa [producedInteractions, producedPosts, ha', hb] using this

/-- The whole-run invariant of `save_full_author_data`: starting from a
directory, the flushed interaction shards hold exactly the produced
interactions, the flushed post shards exactly the produced posts, and
every new file carries one of the crawl's shard prefixes. -/
theorem save_full_author_data_spec (author_id : String) (limit : Nat)
    (inputs : List PostInput) (topErr : Bool) (fs0 : FileSys)
    (h : fs0.dirStatus = .isDir) :
    (save_full_author_data author_id limit inputs topErr fs0).1.dirStatus = .isDir ∧
    flushedOfKind "interaction_" (save_full_author_data author_id limit inputs topErr fs0).1
      = flushedOfKind "interaction_" fs0
          ++ producedInteractions author_id limit inputs 0 ∧
    flushedOfKind "post" (save_full_author_data author_id limit inputs topErr fs0).1
      = flushedOfKind "post" fs0 ++ producedPosts author_id limit inputs 0 ∧
    (∀ f ∈ (save_full_author_data author_id limit inputs topErr fs0).1.files,
      f ∈ fs0.files ∨ goodShardName f.1 = true) := by
  have hloop := crawlLoop_spec author_id limit inputs 0 ⟨fs0, [], []⟩ h
  obtain ⟨hd, hfi, hfp, hgood⟩ := hloop
  set st := (crawlLoop author_id limit inputs 0 ⟨fs0, [], []⟩).1 with hst
  -- the interaction flush of the finally block
  have step1 : ∃ fs1 : FileSys, fs1 =
        (if st.inters.isEmpty then st.fs
         else (save_data st.fs (.arr st.inters) "interaction").1) ∧
      fs1.dirStatus = .isDir ∧
      flushedOfKind "interaction_" fs1 = flushedOfKind "interaction_" st.fs ++ st.inters ∧
      flushedOfKind "post" fs1 = flushedOfKind "post" st.fs ∧
      (∀ f ∈ fs1.files, f ∈ st.fs.files ∨ goodShardName f.1 = true) := by
    by_cases hi : st.inters.isEmpty
    · refine ⟨st.fs, by simp [hi], hd, ?_, rfl, fun f hf => Or.inl hf⟩
      have : st.inters = [] := List.isEmpty_iff.mp hi
      simp [this]
    · refine ⟨(save_data st.fs (.arr st.inters) "interaction").1, by simp [hi],
        ?_, ?_, ?_, ?_⟩ <;>
        rw [save_data_isDir st.fs _ _ hd, normPrefix_interaction] <;> dsimp only
      · rw [flushedOfKind_append_file "interaction_" .isDir st.fs.dirStatus,
          strIsPrefix_mkFilename]
        simp [flushedOfKind_eta, asArr]
      · rw [flushedOfKind_append_file "post" .isDir st.fs.dirStatus,
          strIsPrefix_post_interaction]
        simp [flushedOfKind_eta]
      · intro f hf
        rcases List.mem_append.mp hf with hold | hnew
        · exact Or.inl hold
        · right
          simp only [List.mem_singleton] at hnew
          subst hnew
          simp [goodShardName, strIsPrefix_mkFilename]
  obtain ⟨fs1, hfs1, hd1, hfi1, hfp1, hg1⟩ := step1
  -- the final posts flush of the finally block
  have step2 : ∃ fs2 : FileSys, fs2 =
        (if st.posts.isEmpty then fs1
         else (save_data fs1 (.arr st.posts) "posts").1) ∧
      fs2.dirStatus = .isDir ∧
      flushedOfKind "interaction_" fs2 = flushedOfKind "interaction_" fs1 ∧
      flushedOfKind "post" fs2 = flushedOfKind "post" fs1 ++ st.posts ∧
      (∀ f ∈ fs2.files, f ∈ fs1.files ∨ goodShardName f.1 = true) := by
    by_cases hp : st.posts.isEmpty
    · refine ⟨fs1, by simp [hp], hd1, rfl, ?_, fun f hf => Or.inl hf⟩
      have : st.posts = [] := List.isEmpty_iff.mp hp
      simp [this]
    · refine ⟨(save_data fs1 (.arr st.posts) "posts").1, by simp [hp],
        ?_, ?_, ?_, ?_⟩ <;>
        rw [save_data_isDir fs1 _ _ hd1, normPrefix_posts] <;> dsimp only
      · rw [flushedOfKind_append_file "interaction_" .isDir fs1.dirStatus,
          strIsPrefix_interaction_posts]
        simp [flushedOfKind_eta]
      · rw [flushedOfKind_append_file "post" .isDir fs1.dirStatus,
          strIsPrefix_post_posts]
        simp [flushedOfKind_eta, asArr]
      · intro f hf
        rcases List.mem_append.mp hf with hold | hnew
        · exact Or.inl hold
        · right
          simp only [List.mem_singleton] at hnew
          subst hnew
          simp [goodShardName, strIsPrefix_mkFilename]
  obtain ⟨fs2, hfs2, hd2, hfi2, hfp2, hg2⟩ := step2
  have hrun : (save_full_author_data author_id limit inputs topErr fs0).1 = fs2 := by
    rw [hfs2, hfs1]
    simp only [save_full_author_data, ← hst]
  rw [hrun]
  refine ⟨hd2, ?_, ?_, ?_⟩
  · rw [hfi2, hfi1, hfi]
    simp
  · rw [hfp2, hfp1, hfp]
    simp
  · intro f hf
    rcases hg2 f hf with hm1 | hg
    · rcases hg1 f hm1 with hm2 | hg
      · rcases hgood f hm2 with hm3 | hg
        · exact Or.inl hm3
        · exact Or.inr hg
      · exact Or.inr hg
    · exact Or.inr hg

/-! ### Polling-variant lemmas -/

theorem foldDu_spec (dus : List DU) :
    ∀ st : PollState, st.resultsIds = st.results.map (fun du => du.id) →
    st.resultsIds.Nodup →
    (dus.foldl processDu st).resultsIds
        = (dus.foldl processDu st).results.map (fun du => du.id) ∧
    (dus.foldl processDu st).resultsIds.Nodup ∧
    (dus.foldl processDu st).resultsIds.toFinset
        = st.resultsIds.toFinset ∪ (dus.map (fun du => du.id)).toFinset := by
  induction dus with
  | nil => intro st h1 h2; exact ⟨h1, h2, by simp⟩
  | cons du rest ih =>
      intro st h1 h2
      rw [List.foldl_cons]
      by_cases hmem : du.id ∈ st.resultsIds
      · have hpd : processDu st du
            = { st with maxId := some (match st.maxId with
                  | some m => min m du.id
                  | none => du.id) } := by
          simp [processDu, hmem]
        rw [hpd]
        obtain ⟨g1, g2, g3⟩ := ih { st with maxId := some (match st.maxId with
          | some m => min m du.id
          | none => du.id) } h1 h2
        refine ⟨g1, g2, ?_⟩
        rw [g3]
        dsimp only
        ext x
        simp only [Finset.mem_union, List.mem_toFinset, List.map_cons,
          List.mem_cons] at *
        constructor
        · rintro (hx | hx)
          · exact Or.inl hx
          · exact Or.inr (Or.inr hx)
        · rintro (hx | hx | hx)
          · exact Or.inl hx
          · exact Or.inl (hx ▸ hmem)
          · exact Or.inr hx
      · have hpd : processDu st du
            = { results := st.results ++ [du], resultsIds := st.resultsIds ++ [du.id],
                maxId := some (match st.maxId with
                  | some m => min m du.id
                  | none => du.id) } := by
          simp [processDu, hmem]
        rw [hpd]
        have h1' : st.resultsIds ++ [du.id]
            = (st.results ++ [du]).map (fun du => du.id) := by
          simp [h1]
        have h2' : (st.resultsIds ++ [du.id]).Nodup := by
          simp [List.nodup_append, h2, hmem]
        obtain ⟨g1, g2, g3⟩ := ih
          { results := st.results ++ [du], resultsIds := st.resultsIds ++ [du.id],
            maxId := some (match st.maxId with
              | some m => min m du.id
              | none => du.id) } h1' h2'
        refine ⟨g1, g2, ?_⟩
        rw [g3]
        ext x
        simp only [Finset.mem_union, List.mem_toFinset, List.map_cons,
          List.mem_cons, List.mem_append, List.mem_singleton] at *
        tauto

theorem processTweet_spec (dus : List DU) (st : PollState)
    (h1 : st.resultsIds = st.results.map (fun du => du.id))
    (h2 : st.resultsIds.Nodup) :
    (processTweet st dus).resultsIds
        = (processTweet st dus).results.map (fun du => du.id) ∧
    (processTweet st dus).resultsIds.Nodup ∧
    (processTweet st dus).resultsIds.toFinset
        = st.resultsIds.toFinset ∪ (dus.map (fun du => du.id)).toFinset := by
  match dus with
  | [] => exact ⟨h1, h2, by simp [processTweet]⟩
  | first :: rest =>
      have := foldDu_spec (first :: rest)
        { st with maxId := some (st.maxId.getD first.id) } h1 h2
      simpa [processTweet] using this

theorem processPoll_spec (tweets : List (List DU)) :
    ∀ st : PollState, st.resultsIds = st.results.map (fun du => du.id) →
    st.resultsIds.Nodup →
    (processPoll st tweets).resultsIds
        = (processPoll st tweets).results.map (fun du => du.id) ∧
    (processPoll st tweets).resultsIds.Nodup ∧
    (processPoll st tweets).resultsIds.toFinset
        = st.resultsIds.toFinset
            ∪ (tweets.flatten.map (fun du => du.id)).toFinset := by
  induction tweets with
  | nil => intro st h1 h2; exact ⟨h1, h2, by simp [processPoll]⟩
  | cons t ts ih =>
      intro st h1 h2
      obtain ⟨g1, g2, g3⟩ := processTweet_spec t st h1 h2
      have hfold : processPoll st (t :: ts) = processPoll (processTweet st t) ts := by
        simp [processPoll]
      obtain ⟨k1, k2, k3⟩ := ih (processTweet st t) g1 g2
      rw [hfold]
      refine ⟨k1, k2, ?_⟩
      rw [k3, g3]
      ext x
      simp only [Finset.mem_union, List.mem_toFinset, List.flatten_cons,
        List.flatten_append, List.map_append, List.mem_append] at *
      tauto

theorem runPolls_spec (polls : List (List (List DU))) :
    (runPolls polls).resultsIds
        = (runPolls polls).results.map (fun du => du.id) ∧
    (runPolls polls).resultsIds.Nodup ∧
    (runPolls polls).resultsIds.toFinset = (allPollIds polls).toFinset := by
  have main : ∀ (ps : List (List (List DU))) (st : PollState),
      st.resultsIds = st.results.map (fun du => du.id) →
      st.resultsIds.Nodup →
      (ps.foldl processPoll st).resultsIds
          = (ps.foldl processPoll st).results.map (fun du => du.id) ∧
      (ps.foldl processPoll st).resultsIds.Nodup ∧
      (ps.foldl processPoll st).resultsIds.toFinset
          = st.resultsIds.toFinset
              ∪ ((ps.flatten.flatten).map (fun du => du.id)).toFinset := by
    intro ps
    induction ps with
    | nil => intro st h1 h2; exact ⟨h1, h2, by simp⟩
    | cons p ps ih =>
        intro st h1 h2
        obtain ⟨g1, g2, g3⟩ := processPoll_spec p st h1 h2
        rw [List.foldl_cons]
        obtain ⟨k1, k2, k3⟩ := ih (processPoll st p) g1 g2
        refine ⟨k1, k2, ?_⟩
        rw [k3, g3]
        ext x
        simp only [Finset.mem_union, List.mem_toFinset, List.flatten_cons,
          List.flatten_append, List.map_append, List.mem_append] at *
        tauto
  obtain ⟨h1, h2, h3⟩ := main polls ⟨[], [], none⟩ rfl List.nodup_nil
  exact ⟨h1, h2, by simpa [runPolls, allPollIds] using h3⟩

/-! ### Credential-exchange lemmas -/

theorem strContains_of_prefix (s pat : String) (h : pat.data <+: s.data) :
    strContains s pat = true := by
  simp only [strContains, List.any_eq_true]
  exact ⟨s.data, (List.mem_tails _ _).mpr (List.suffix_refl _),
    List.isPrefixOf_iff_prefix.mpr h⟩

theorem strContains_eq_false_iff (s pat : String) :
    strContains s pat = false ↔ ∀ t, t <:+ s.data → ¬ pat.data.isPrefixOf t = true := by
  simp only [strContains, List.any_eq_false]
  constructor
  · intro h t ht
    exact h t ((List.mem_tails _ _).mpr ht)
  · intro h t ht
    exact h t ((List.mem_tails _ _).mp ht)

theorem replaceAllAux_id (pat : List Char) :
    ∀ (fuel : Nat) (s : List Char),
      (∀ t, t <:+ s → ¬ pat.isPrefixOf t = true) →
      replaceAllAux pat fuel s = s := by
  intro fuel
  induction fuel with
  | zero => intro s _; rfl
  | succ f ih =>
      intro s hno
      match s with
      | [] => rfl
      | c :: rest =>
          have hnp : ¬ pat.isPrefixOf (c :: rest) = true :=
            hno (c :: rest) (List.suffix_refl _)
          have hcond : ¬ (pat ≠ [] ∧ pat.isPrefixOf (c :: rest) = true) := by
            intro hc; exact hnp hc.2
          simp only [replaceAllAux, if_neg hcond]
          congr 1
          exact ih rest (fun t ht => hno t (ht.trans (List.suffix_cons c rest)))

theorem replaceAllAux_cons_pos (pat : List Char) (fuel : Nat) (c : Char)
    (rest : List Char) (hne : pat ≠ []) (hpre : pat.isPrefixOf (c :: rest) = true) :
    replaceAllAux pat (fuel + 1) (c :: rest)
      = replaceAllAux pat fuel ((c :: rest).drop pat.length) := by
  simp only [replaceAllAux, if_pos (And.intro hne hpre)]

theorem replaceAllAux_strip (pat v : List Char) (c : Char) (tl : List Char)
    (hp : pat = c :: tl)
    (hno : ∀ t, t <:+ v → ¬ pat.isPrefixOf t = true) (fuel : Nat) :
    replaceAllAux pat (fuel + 1) (pat ++ v) = v := by
  subst hp
  rw [List.cons_append]
  rw [replaceAllAux_cons_pos _ _ _ _ (by simp)
    (by rw [← List.cons_append]; exact isPrefixOf_append_self _ _)]
  rw [List.length_cons, List.drop_succ_cons, List.drop_left]
  exact replaceAllAux_id _ _ _ hno

theorem access_token_strip (v : String)
    (hv : strContains v "access_token=" = false) :
    strRemoveAll ("access_token=" ++ v) "access_token=" = v := by
  apply String.ext
  have hdata : ("access_token=" ++ v).data = "access_token=".data ++ v.data :=
    String.data_append _ _
  show replaceAllAux "access_token=".data ("access_token=" ++ v).data.length
      ("access_token=" ++ v).data = v.data
  rw [hdata]
  have h13 : ("access_token=" : String).data.length = 13 := rfl
  have hlen : ("access_token=".data ++ v.data).length
      = (("access_token=".data ++ v.data).length - 1) + 1 := by
    rw [List.length_append, h13]
    omega
  rw [hlen]
  exact replaceAllAux_strip "access_token=".data v.data 'a' "ccess_token=".data rfl
    ((strContains_eq_false_iff v "access_token=").mp hv) _

/-! ### Generic list lemma for like-id unambiguity -/

theorem append_cons_eq_of_not_mem {α : Type} {c : α} :
    ∀ {a1 a2 b1 b2 : List α}, c ∉ a1 → c ∉ a2 →
      a1 ++ c :: b1 = a2 ++ c :: b2 → a1 = a2 ∧ b1 = b2 := by
  intro a1
  induction a1 with
  | nil =>
      intro a2 b1 b2 _ h2 heq
      match a2 with
      | [] => simpa using heq
      | x :: t =>
          simp only [List.nil_append, List.cons_append, List.cons.injEq] at heq
          exact absurd (heq.1 ▸ List.mem_cons_self x t) (heq.1 ▸ h2)
  | cons x t ih =>
      intro a2 b1 b2 h1 h2 heq
      match a2 with
      | [] =>
          simp only [List.nil_append, List.cons_append, List.cons.injEq] at heq
          exact absurd (heq.1 ▸ List.mem_cons_self x t) (fun hc => h1 (heq.1 ▸ hc))
      | y :: t2 =>
          simp only [List.cons_append, List.cons.injEq] at heq
          have h1' : c ∉ t := fun hc => h1 (List.mem_cons_of_mem x hc)
          have h2' : c ∉ t2 := fun hc => h2 (List.mem_cons_of_mem y hc)
          obtain ⟨he1, he2⟩ := ih h1' h2' heq.2
          exact ⟨by rw [heq.1, he1], he2⟩

theorem size_replicate_append (n : Nat) (i : Json) :
    get_interaction_list_size (List.replicate n Json.null ++ [i]) = 273 * (n + 1) := by
  unfold get_interaction_list_size
  rw [List.length_append, List.length_replicate, List.length_singleton]

/-! ## Claim theorems -/

/-- C4: for every directory state, `save_data` writes the records to the
file `<prefix>data_<n>.json` where `n` is the smallest non-negative integer
whose filename does not yet exist in the directory, appending it to the
directory without touching (in particular without overwriting) any existing
file. -/
theorem c4_save_data_smallest_free (fs : FileSys) (obj : Json) (p : String)
    (h : fs.dirStatus = DirStatus.isDir) :
    save_data fs obj p
      = ({ dirStatus := .isDir,
           files := fs.files ++
             [(mkFilename (normPrefix p)
                 (firstFree (fs.files.map (fun f => f.1)) (normPrefix p)), obj)] },
         true) ∧
    mkFilename (normPrefix p) (firstFree (fs.files.map (fun f => f.1)) (normPrefix p))
        ∉ fs.files.map (fun f => f.1) ∧
    (∀ m, m < firstFree (fs.files.map (fun f => f.1)) (normPrefix p) →
      mkFilename (normPrefix p) m ∈ fs.files.map (fun f => f.1)) :=
  ⟨save_data_isDir fs obj p h, firstFree_not_mem _ _, firstFree_minimal _ _⟩

/-- Witness for C4: with `post_data_0.json` present, the next post shard is
`post_data_1.json` and the old file is untouched. -/
theorem c4_save_data_smallest_free_witness :
    (save_data ⟨DirStatus.isDir, [("post_data_0.json", Json.null)]⟩
        Json.null "post").1.files.map (fun f => f.1)
      = ["post_data_0.json", "post_data_1.json"] := by
  have h := c4_save_data_smallest_free
    ⟨DirStatus.isDir, [("post_data_0.json", Json.null)]⟩ Json.null "post" rfl
  rw [h.1]
  rfl

/-- C5: each `append_interaction` call flushes at most once (the file count
grows by at most one), flushes exactly when the post-append estimate
`273 × count` exceeds the 20 MiB threshold (returning an empty pending
list), returns the appended list unchanged otherwise, and the returned
list's estimate never exceeds the threshold. -/
theorem c5_append_interaction_flush (fs : FileSys) (il : List Json) (i : Json) :
    (get_interaction_list_size (il ++ [i]) > DATA_FILE_SIZE →
        (append_interaction fs il i).2 = [] ∧
        (append_interaction fs il i).1
          = (save_data fs (.arr (il ++ [i])) "interaction").1) ∧
    (¬ get_interaction_list_size (il ++ [i]) > DATA_FILE_SIZE →
        append_interaction fs il i = (fs, il ++ [i])) ∧
    (append_interaction fs il i).1.files.length ≤ fs.files.length + 1 ∧
    get_interaction_list_size (append_interaction fs il i).2 ≤ DATA_FILE_SIZE := by
  have hsave : (save_data fs (.arr (il ++ [i])) "interaction").1.files.length
      ≤ fs.files.length + 1 := by
    cases hd : fs.dirStatus <;> simp [save_data, hd]
  by_cases hs : get_interaction_list_size (il ++ [i]) > DATA_FILE_SIZE
  · have hred : append_interaction fs il i
        = ((save_data fs (.arr (il ++ [i])) "interaction").1, []) := by
      simp only [append_interaction]
      rw [if_pos hs]
    rw [hred]
    exact ⟨fun _ => ⟨rfl, rfl⟩, fun hc => absurd hs hc, hsave,
      by simp [get_interaction_list_size]⟩
  · have hred : append_interaction fs il i = (fs, il ++ [i]) := by
      simp only [append_interaction]
      rw [if_neg hs]
    rw [hred]
    refine ⟨fun hc => absurd hc hs, fun _ => rfl, by simp, ?_⟩
    simp only [get_interaction_list_size, DATA_FILE_SIZE] at hs ⊢
    omega

/-- Witness for C5: a pending list of 76 819 records plus one more crosses
the 20 MiB estimate, so the flush fires and the returned list is empty. -/
theorem c5_append_interaction_flush_witness :
    (append_interaction ⟨DirStatus.isDir, []⟩
        (List.replicate 76819 Json.null) Json.null).2 = [] ∧
    get_interaction_list_size (List.replicate 76819 Json.null ++ [Json.null])
      > DATA_FILE_SIZE := by
  have hs : get_interaction_list_size (List.replicate 76819 Json.null ++ [Json.null])
      > DATA_FILE_SIZE := by
    rw [size_replicate_append]
    norm_num [DATA_FILE_SIZE]
  exact ⟨((c5_append_interaction_flush ⟨DirStatus.isDir, []⟩
    (List.replicate 76819 Json.null) Json.null).1 hs).1, hs⟩

/-- Counterexample for C6: the like-id synthesis is not collision-free over
all string-valued ids — the distinct pairs `("x_y", "z")` and
`("x", "y_z")` synthesize the same id `"L_x_y_z"`. -/
theorem c6_counterexample :
    mkLikeId "x_y" "z" = mkLikeId "x" "y_z" ∧
    (("x_y", "z") : String × String) ≠ ("x", "y_z") := by
  constructor
  · rfl
  · decide

/-- C6 (amended): like-id synthesis `"L_" + userId + "_" + postId` is a
deterministic function of the pair, and it is collision-free provided the
acting-user ids contain no underscore (as the numeric ids of the remote API
do): two pairs with underscore-free user ids and the same synthesized id
are equal. -/
theorem c6_like_id_injective (u1 p1 u2 p2 : String)
    (h1 : '_' ∉ u1.data) (h2 : '_' ∉ u2.data)
    (heq : mkLikeId u1 p1 = mkLikeId u2 p2) : u1 = u2 ∧ p1 = p2 := by
  have hdata := congrArg String.data heq
  simp only [mkLikeId, String.data_append, List.append_assoc] at hdata
  simp only [List.cons_append, List.nil_append, List.cons.injEq, true_and] at hdata
  have hdata' : u1.data ++ '_' :: p1.data = u2.data ++ '_' :: p2.data := by
    simpa using hdata
  obtain ⟨hu, hp⟩ := append_cons_eq_of_not_mem h1 h2 hdata'
  exact ⟨String.ext hu, String.ext hp⟩

/-- Witness for C6 (amended): underscore-free user ids, equal synthesized
ids, equal pairs. -/
theorem c6_like_id_injective_witness : ("a" : String) = "a" ∧ ("b" : String) = "b" :=
  c6_like_id_injective "a" "b" "a" "b" (by decide) (by decide) rfl

theorem process_post_eq (author_id : String) (post : Dict) :
    process_post author_id post =
      match dictGet post "shares" with
      | some sh =>
          dictErase (dictSet (dictSet (dictSet post "origin" (.str "facebook"))
            "author" (.str author_id)) "share_count" (sharesCount sh)) "shares"
      | none =>
          dictSet (dictSet (dictSet post "origin" (.str "facebook"))
            "author" (.str author_id)) "share_count" (.num 0) := by
  simp only [process_post]
  rw [dictGet_dictSet_other _ _ _ _ (by decide),
    dictGet_dictSet_other _ _ _ _ (by decide)]

/-- C9: every post record emitted by the crawl carries a `share_count`
field: it equals the nested `count` of the API's `shares` object when that
nested count is present, is 0 when the `shares` field or its nested count
is absent, and the nested `shares` field itself is removed from the stored
record. -/
theorem c9_share_count_flatten (author_id : String) (post : Dict) :
    (dictGet post "shares" = none →
      dictGet (process_post author_id post) "share_count" = some (.num 0) ∧
      dictGet (process_post author_id post) "shares" = none) ∧
    (∀ kvs c, dictGet post "shares" = some (.obj kvs) →
      dictGet kvs "count" = some c →
      dictGet (process_post author_id post) "share_count" = some c ∧
      dictGet (process_post author_id post) "shares" = none) ∧
    (∀ kvs, dictGet post "shares" = some (.obj kvs) →
      dictGet kvs "count" = none →
      dictGet (process_post author_id post) "share_count" = some (.num 0) ∧
      dictGet (process_post author_id post) "shares" = none) := by
  refine ⟨?_, ?_, ?_⟩
  · intro hnone
    rw [process_post_eq, hnone]
    constructor
    · exact dictGet_dictSet_self _ _ _
    · rw [dictGet_dictSet_other _ _ _ _ (by decide),
        dictGet_dictSet_other _ _ _ _ (by decide),
        dictGet_dictSet_other _ _ _ _ (by decide)]
      exact hnone
  · intro kvs c hsh hcount
    rw [process_post_eq, hsh]
    have hval : sharesCount (Json.obj kvs) = c := by
      simp [sharesCount, hcount]
    constructor
    · rw [dictGet_dictErase_other _ _ _ (by decide), dictGet_dictSet_self, hval]
    · exact dictGet_dictErase_self _ _
  · intro kvs hsh hcount
    rw [process_post_eq, hsh]
    have hval : sharesCount (Json.obj kvs) = Json.num 0 := by
      simp [sharesCount, hcount]
    constructor
    · rw [dictGet_dictErase_other _ _ _ (by decide), dictGet_dictSet_self, hval]
    · exact dictGet_dictErase_self _ _

/-- Witness for C9: a post with `shares = {count: 7}` stores
`share_count = 7` and drops `shares`; a post without `shares` stores
`share_count = 0`. -/
theorem c9_share_count_flatten_witness :
    dictGet (process_post "a" [("id", Json.str "p"),
        ("shares", Json.obj [("count", Json.num 7)])]) "share_count"
      = some (Json.num 7) ∧
    dictGet (process_post "a" [("id", Json.str "p"),
        ("shares", Json.obj [("count", Json.num 7)])]) "shares" = none ∧
    dictGet (process_post "a" [("id", Json.str "p")]) "share_count"
      = some (Json.num 0) := by
  have h1 := (c9_share_count_flatten "a"
    [("id", Json.str "p"), ("shares", Json.obj [("count", Json.num 7)])]).2.1
    [("count", Json.num 7)] (Json.num 7) rfl rfl
  have h2 := ((c9_share_count_flatten "a" [("id", Json.str "p")]).1 rfl).1
  exact ⟨h1.1, h1.2, h2⟩

/-- C10: when the destination data-directory path exists as a regular file,
`save_data` raises nothing, writes nothing and returns `False`; and
`append_interaction` still replaces its pending list with an empty one
after such a failed flush, silently discarding the pending records. -/
theorem c10_flush_to_file_path_discards (fs : FileSys) (il : List Json)
    (i obj : Json) (pfx : String)
    (hdir : fs.dirStatus = DirStatus.isFile)
    (hsize : get_interaction_list_size (il ++ [i]) > DATA_FILE_SIZE) :
    save_data fs obj pfx = (fs, false) ∧ append_interaction fs il i = (fs, []) := by
  have hsd : ∀ o : Json, save_data fs o "interaction" = (fs, false) := by
    intro o; simp [save_data, hdir]
  refine ⟨by simp [save_data, hdir], ?_⟩
  simp only [append_interaction]
  rw [if_pos hsize, hsd]

/-- Witness for C10: a directory path shadowed by a regular file makes the
over-threshold flush drop all 76 820 pending records. -/
theorem c10_flush_to_file_path_discards_witness :
    append_interaction ⟨DirStatus.isFile, []⟩
        (List.replicate 76819 Json.null) Json.null
      = (⟨DirStatus.isFile, []⟩, []) := by
  have hs : get_interaction_list_size (List.replicate 76819 Json.null ++ [Json.null])
      > DATA_FILE_SIZE := by
    rw [size_replicate_append]
    norm_num [DATA_FILE_SIZE]
  exact (c10_flush_to_file_path_discards ⟨DirStatus.isFile, []⟩
    (List.replicate 76819 Json.null) Json.null Json.null "x" rfl hs).2

/-- C3: the credential exchange returns the access token for both accepted
response forms — a JSON object carrying an `access_token` field, and a
legacy plain-text `access_token=<value>` body — and on every body that is
neither valid JSON nor contains the substring `access_token` it fails by
raising an exception; the token is acquired inside the `GraphApi`
constructor, so such a failure propagates out of `GraphApi.init` before any
page fetch can be issued. -/
theorem c3_access_token_request_forms :
    (∀ (kvs : Dict) (v : Json), dictGet kvs "access_token" = some v →
      access_token_request (.jsonResp (.obj kvs)) = .ok (some v)) ∧
    (∀ v : String, strContains v "access_token=" = false →
      access_token_request (.textResp ("access_token=" ++ v))
        = .ok (some (.str v))) ∧
    (∀ s : String, strContains s "access_token" = false →
      access_token_request (.textResp s) = .error .attributeError) ∧
    (∀ (app_id app_secret : String) (resp : TokenResp) (e : PyErr),
      app_id ≠ "" → app_secret ≠ "" →
      access_token_request resp = .error e →
      GraphApi.init app_id app_secret resp = .error e) := by
  refine ⟨?_, ?_, ?_, ?_⟩
  · intro kvs v h
    simp [access_token_request, h]
  · intro v hv
    have hcontains : strContains ("access_token=" ++ v) "access_token" = true := by
      apply strContains_of_prefix
      rw [String.data_append]
      have hsplit : ("access_token=" : String).data
          = ("access_token" : String).data ++ ("=" : String).data := rfl
      rw [hsplit, List.append_assoc]
      exact List.prefix_append _ _
    simp only [access_token_request, hcontains, if_true]
    rw [access_token_strip v hv]
  · intro s hs
    simp [access_token_request, hs]
  · intro app_id app_secret resp e ha hb herr
    simp [GraphApi.init, ha, hb, herr]

/-- Witness for C3: both accepted forms at concrete inputs, and a malformed
body failing through the constructor. -/
theorem c3_access_token_request_forms_witness :
    access_token_request (.jsonResp (.obj [("access_token", Json.str "TOK")]))
      = .ok (some (Json.str "TOK")) ∧
    access_token_request (.textResp ("access_token=" ++ "TOK"))
      = .ok (some (Json.str "TOK")) ∧
    access_token_request (.textResp "nonsense") = .error .attributeError ∧
    GraphApi.init "appid" "secret" (.textResp "nonsense")
      = .error PyErr.attributeError := by
  have h := c3_access_token_request_forms
  have h3 := h.2.2.1 "nonsense" (by decide)
  exact ⟨h.1 _ _ rfl, h.2.1 "TOK" (by decide), h3,
    h.2.2.2 "appid" "secret" _ _ (by decide) (by decide) h3⟩

/-- Counterexample for C2: a page response with an error marker does not
end the sequence like end-of-pages — `get_all_elements` raises a
`ValueError` (the error component is not `none`), because
`response_has_error` is called with its raising default. -/
theorem c2_counterexample :
    (get_all_elements [[("error", Json.str "boom")]]).2 ≠ none := by
  have h : (get_all_elements [[("error", Json.str "boom")]]).2
      = some (PyErr.valueError (Json.str "boom")) := rfl
  rw [h]
  simp

/-- C2 (amended): when a page response contains an error marker,
`get_all_elements` stops yielding immediately but raises `ValueError` to
its caller rather than treating the error as end-of-pages; consequently a
broken sub-resource of a single post aborts the whole crawl (the exception
surfaces from `save_full_author_data`, after its final flush). -/
theorem c2_error_page_raises :
    (∀ (page : Dict) (rest : List Dict) (e : Json),
      dictGet page "error" = some e →
      get_all_elements (page :: rest) = ([], some (.valueError e))) ∧
    (∀ (author_id : String) (limit : Nat) (pi : PostInput)
        (rest : List PostInput) (topErr : Bool) (fs0 : FileSys),
      postAborts pi = true →
      (save_full_author_data author_id limit (pi :: rest) topErr fs0).2 = true) := by
  constructor
  · intro page rest e he
    simp [get_all_elements, he]
  · intro author_id limit pi rest topErr fs0 ha
    have hloop : (crawlLoop author_id limit (pi :: rest) 0 ⟨fs0, [], []⟩).2
        = Outcome.aborted := by
      simp [crawlLoop, processPost_flag, ha]
    simp [save_full_author_data, hloop]

/-- Witness for C2 (amended): a concrete error page raises, and a crawl
whose first post has a broken comment sub-resource surfaces the error. -/
theorem c2_error_page_raises_witness :
    get_all_elements [[("error", Json.str "boom")]]
      = ([], some (PyErr.valueError (Json.str "boom"))) ∧
    (save_full_author_data "a" 5
        [⟨⟨"p1", []⟩, [], true, [], false, [], false⟩] false
        ⟨DirStatus.isDir, []⟩).2 = true :=
  ⟨c2_error_page_raises.1 _ [] _ rfl,
   c2_error_page_raises.2 "a" 5 _ [] false _ rfl⟩

/-- C7: the polling accumulator is deduplicated by id — a unit whose id is
already in the seen-id collection is skipped — so after any sequence of
polls (overlapping or not) it contains no two units with the same id and
its size is the number of distinct ids observed across all polls. -/
theorem c7_polling_dedup (polls : List (List (List DU))) :
    ((runPolls polls).results.map (fun du => du.id)).Nodup ∧
    (runPolls polls).results.length = (allPollIds polls).toFinset.card := by
  obtain ⟨h1, h2, h3⟩ := runPolls_spec polls
  constructor
  · rw [← h1]; exact h2
  · have hlen : (runPolls polls).resultsIds.length
        = (runPolls polls).results.length := by
      rw [h1, List.length_map]
    have hcard := List.toFinset_card_of_nodup h2
    rw [h3] at hcard
    omega

/-- Counterexample for C8: a run that ends with a pending post writes the
final post shard as `posts_data_<n>.json` — whose prefix is `posts_`, not
one of `post_`, `interaction_`, `user_`. -/
theorem c8_counterexample :
    ((save_full_author_data "a" 1000
        [⟨⟨"p1", []⟩, [], false, [], false, [], false⟩] false
        ⟨DirStatus.isDir, []⟩).1.files.map (fun f => f.1))
      = ["posts_data_0.json"] ∧
    strIsPrefix "post_" "posts_data_0.json" = false ∧
    strIsPrefix "interaction_" "posts_data_0.json" = false ∧
    strIsPrefix "user_" "posts_data_0.json" = false := by
  refine ⟨rfl, by decide, by decide, by decide⟩

/-- C8 (amended): every shard file written by the crawl of
`save_full_author_data` is named with one of the prefixes `interaction_`
(all interaction flushes), `post_` (in-loop post flushes) or `posts_` (the
final post flush); `user_` files come only from the separate user-detail
saver. -/
theorem c8_shard_prefixes (author_id : String) (limit : Nat)
    (inputs : List PostInput) (topErr : Bool) (fs0 : FileSys)
    (h : fs0.dirStatus = DirStatus.isDir) :
    ∀ f ∈ (save_full_author_data author_id limit inputs topErr fs0).1.files,
      f ∈ fs0.files ∨ goodShardName f.1 = true :=
  (save_full_author_data_spec author_id limit inputs topErr fs0 h).2.2.2

/-- Witness for C8 (amended): the single file written by a one-post crawl
has a crawl shard prefix. -/
theorem c8_shard_prefixes_witness : goodShardName "posts_data_0.json" = true := by
  have h := c8_shard_prefixes "a" 1000
    [⟨⟨"p2", []⟩, [], false, [], false, [], false⟩] false ⟨DirStatus.isDir, []⟩ rfl
  have hfiles : (save_full_author_data "a" 1000
      [⟨⟨"p2", []⟩, [], false, [], false, [], false⟩] false
      ⟨DirStatus.isDir, []⟩).1.files
      = [("posts_data_0.json",
          Json.arr [Json.obj (process_post "a" (postDict ⟨"p2", []⟩))])] := rfl
  have hmem := h ("posts_data_0.json",
    Json.arr [Json.obj (process_post "a" (postDict ⟨"p2", []⟩))])
    (by rw [hfiles]; exact List.mem_singleton.mpr rfl)
  rcases hmem with hin | hg
  · simp at hin
  · exact hg

/-- C1: flush-on-exit. For every crawl run of `save_full_author_data` —
whether it ends normally, by the post-count break, or by an exception in
pagination or fan-out — the pending records are flushed in the `finally`
block before the run returns, so the records across all flushed shards of a
kind equal exactly the records produced up to the termination point; and
the polling variant persists its whole accumulator in its `finally` block
on any loop exit. -/
theorem c1_flush_on_exit :
    (∀ (author_id : String) (limit : Nat) (inputs : List PostInput)
        (topErr : Bool) (fs0 : FileSys), fs0.dirStatus = DirStatus.isDir →
      flushedOfKind "interaction_"
          (save_full_author_data author_id limit inputs topErr fs0).1
        = flushedOfKind "interaction_" fs0
            ++ producedInteractions author_id limit inputs 0 ∧
      flushedOfKind "post"
          (save_full_author_data author_id limit inputs topErr fs0).1
        = flushedOfKind "post" fs0 ++ producedPosts author_id limit inputs 0) ∧
    (∀ (polls : List (List (List DU))) (err : Bool) (fs : FileSys),
      fs.dirStatus = DirStatus.isDir →
      (pollingMain polls err fs).1.files
        = fs.files ++ [(mkFilename "" (firstFree (fs.files.map (fun f => f.1)) ""),
            Json.arr ((runPolls polls).results.map duToJson))]) := by
  constructor
  · intro author_id limit inputs topErr fs0 h
    obtain ⟨_, h2, h3, _⟩ :=
      save_full_author_data_spec author_id limit inputs topErr fs0 h
    exact ⟨h2, h3⟩
  · intro polls err fs h
    simp [pollingMain, SaveResults, h]

/-- Witness for C1: a crawl of one post with one comment, interrupted by a
broken like sub-resource, still has its interaction and its post in the
flushed shards; the polling side persists its accumulator even on an
exceptional exit. -/
theorem c1_flush_on_exit_witness :
    flushedOfKind "interaction_"
        (save_full_author_data "a" 1000
          [⟨⟨"p1", []⟩, [⟨"c1", "t", "u1", "hi", 2⟩], false, [], true, [], false⟩]
          false ⟨DirStatus.isDir, []⟩).1
      = producedInteractions "a" 1000
          [⟨⟨"p1", []⟩, [⟨"c1", "t", "u1", "hi", 2⟩], false, [], true, [], false⟩] 0 ∧
    (pollingMain [[[⟨5, "u"⟩]]] true ⟨DirStatus.isDir, []⟩).1.files
      = [("data_0.json", Json.arr [duToJson ⟨5, "u"⟩])] := by
  have h := c1_flush_on_exit
  have h1 := (h.1 "a" 1000
    [⟨⟨"p1", []⟩, [⟨"c1", "t", "u1", "hi", 2⟩], false, [], true, [], false⟩]
    false ⟨DirStatus.isDir, []⟩ rfl).1
  have h2 := h.2 [[[⟨5, "u"⟩]]] true ⟨DirStatus.isDir, []⟩ rfl
  constructor
  · rw [h1]
    rfl
  · rw [h2]
    rfl

end SNA
